import Mathlib

/-!
Shallow embedding of the elevator simulator (src/src/main.rs): the per-elevator
state machine (`elevator_loop`), the dispatcher scoring and assignment
(`Controller::request_elevator`, `ElevatorState::calculate_score`), and the
command channel between them.  Machine integers (`i32`) are modelled as `Int`;
`BTreeSet<i32>` as `Finset Int`; a Rust panic (`unreachable!()`, a failed
`unwrap()` on `send`) as `Option.none`.
-/

inductive Direction
  | Up
  | Down
  | Idle
deriving DecidableEq

inductive Command
  | AddStop (floor : Int)
  | Status
deriving DecidableEq

structure ElevatorState where
  id : Nat
  current_floor : Int
  direction : Direction
  stops : Finset Int
deriving DecidableEq

/-- `ElevatorState::new`: floor 0, direction Idle, no stops. -/
def ElevatorState.new (id : Nat) : ElevatorState :=
  { id := id, current_floor := 0, direction := Direction.Idle, stops := ∅ }

/-- `ElevatorState::calculate_score` (main.rs lines 36-59), translated branch
for branch; `distance = (self.current_floor - floor).abs()`. -/
def ElevatorState.calculate_score (s : ElevatorState) (floor : Int) (direction : Direction) : Int :=
  let distance : Int := ((s.current_floor - floor).natAbs : Int)
  match s.direction with
  | Direction.Idle => distance
  | Direction.Up =>
    if direction = Direction.Up ∧ floor ≥ s.current_floor then distance
    else if direction = Direction.Up then distance + 1000
    else distance + 500
  | Direction.Down =>
    if direction = Direction.Down ∧ floor ≤ s.current_floor then distance
    else if direction = Direction.Down then distance + 1000
    else distance + 500

/-- `stops.range(current_floor + 1..).next()`: least stop strictly above `c`. -/
def stopAbove (stops : Finset Int) (c : Int) : Option Int :=
  if h : (stops.filter fun f => c < f).Nonempty
  then some ((stops.filter fun f => c < f).min' h) else none

/-- `stops.range(..=current_floor).next_back()`: greatest stop at or below `c`. -/
def stopAtOrBelow (stops : Finset Int) (c : Int) : Option Int :=
  if h : (stops.filter fun f => f ≤ c).Nonempty
  then some ((stops.filter fun f => f ≤ c).max' h) else none

/-- `stops.range(..current_floor).next_back()`: greatest stop strictly below `c`. -/
def stopBelow (stops : Finset Int) (c : Int) : Option Int :=
  if h : (stops.filter fun f => f < c).Nonempty
  then some ((stops.filter fun f => f < c).max' h) else none

/-- `stops.range(current_floor..).next()`: least stop at or above `c`. -/
def stopAtOrAbove (stops : Finset Int) (c : Int) : Option Int :=
  if h : (stops.filter fun f => c ≤ f).Nonempty
  then some ((stops.filter fun f => c ≤ f).min' h) else none

/-- The `Direction::Idle` arm of the decision `match` (main.rs lines 151-175):
compare the least stop strictly above with the greatest stop strictly below;
`u - current_floor <= current_floor - d` moves up, otherwise down; a single
candidate wins by default; `(None, None)` is the `unreachable!()` panic,
modelled as `none`. -/
def idleDecision (stops : Finset Int) (c : Int) : Option (Int × Direction) :=
  match stopAbove stops c, stopBelow stops c with
  | some u, some d =>
    if u - c ≤ c - d then some (c + 1, Direction.Up) else some (c - 1, Direction.Down)
  | some _, none => some (c + 1, Direction.Up)
  | none, some _ => some (c - 1, Direction.Down)
  | none, none => none

/-- Modelled from the claim's words (claim C4, spec 4.1 Idle rule): compare
the nearest stop strictly above with the nearest stop at-or-below the current
floor, pick whichever is closer, ties broken toward Up. -/
def idleDecisionClaimed (stops : Finset Int) (c : Int) : Option (Int × Direction) :=
  match stopAbove stops c, stopAtOrBelow stops c with
  | some u, some d =>
    if u - c < c - d then some (c + 1, Direction.Up)
    else if c - d < u - c then some (c - 1, Direction.Down)
    else some (c + 1, Direction.Up)
  | some _, none => some (c + 1, Direction.Up)
  | none, some _ => some (c - 1, Direction.Down)
  | none, none => none

/-- The claim's rule with the down search amended to the nearest stop strictly
below the current floor (the source's exclusive `range(..current_floor)`),
still picking the closer candidate with ties broken toward Up. -/
def idleDecisionAmended (stops : Finset Int) (c : Int) : Option (Int × Direction) :=
  match stopAbove stops c, stopBelow stops c with
  | some u, some d =>
    if u - c < c - d then some (c + 1, Direction.Up)
    else if c - d < u - c then some (c - 1, Direction.Down)
    else some (c + 1, Direction.Up)
  | some _, none => some (c + 1, Direction.Up)
  | none, some _ => some (c - 1, Direction.Down)
  | none, none => none

/-- The decision `match` on `direction` (main.rs lines 130-176), for a
non-empty stop set: yields `(next_floor, direction)`.  In the `Up` and `Down`
arms the searched value is only tested for presence, and `next_floor` keeps its
initial value `current_floor` when both searches fail, exactly as in the
source. -/
def decideMove (s : ElevatorState) : Option (Int × Direction) :=
  let c := s.current_floor
  match s.direction with
  | Direction.Up =>
    match stopAbove s.stops c with
    | some _ => some (c + 1, Direction.Up)
    | none =>
      match stopAtOrBelow s.stops c with
      | some _ => some (c - 1, Direction.Down)
      | none => some (c, Direction.Down)
  | Direction.Down =>
    match stopBelow s.stops c with
    | some _ => some (c - 1, Direction.Down)
    | none =>
      match stopAtOrAbove s.stops c with
      | some _ => some (c + 1, Direction.Up)
      | none => some (c, Direction.Up)
  | Direction.Idle => idleDecision s.stops c

/-- One decision-plus-apply phase of `elevator_loop` (main.rs lines 120-198):
empty stop set resets the direction to Idle without moving; otherwise the
decided move is applied and, when the new floor was a pending stop, it is
removed (`should_stop` / `stops.remove`); `Finset.erase` is the identity when
the floor is not a member, matching the conditional `remove`.  `none` is the
`unreachable!()` panic propagated from the Idle arm. -/
def tick (s : ElevatorState) : Option ElevatorState :=
  if s.stops = ∅ then some { s with direction := Direction.Idle }
  else
    match decideMove s with
    | none => none
    | some (next, dir) =>
      some { s with current_floor := next, direction := dir, stops := s.stops.erase next }

/-- Processing of one drained `Command` (main.rs lines 103-118): `AddStop`
inserts into the stop set, `Status` only prints. -/
def applyCommand (s : ElevatorState) : Command → ElevatorState
  | Command.AddStop floor => { s with stops := insert floor s.stops }
  | Command.Status => s

/-- The drain `while let Ok(cmd) = receiver.try_recv()` applied to a queue of
already-sent commands, in FIFO order. -/
def drainList : List Command → ElevatorState → ElevatorState
  | [], s => s
  | c :: rest, s => drainList rest (applyCommand s c)

/-- The worker's view of its mpsc channel: the queued commands plus whether
every sender was dropped.  `try_recv` yields queued messages even after
disconnection; on an empty queue it returns an error (`Empty` or
`Disconnected`) and the drain `while` ends either way. -/
structure Receiver where
  queue : List Command
  disconnected : Bool
deriving DecidableEq

/-- Outcome of one iteration of the `loop` in `elevator_loop`.  Rust's `loop`
ends only through `break` or `return` (the `exit` outcome) or a panic (the
`fault` outcome); the body of `elevator_loop` contains no `break` or `return`,
so the translation below never produces `exit`. -/
inductive StepResult
  | cont (s : ElevatorState)
  | fault
  | exit (s : ElevatorState)
deriving DecidableEq

def StepResult.isExit : StepResult → Bool
  | StepResult.exit _ => true
  | _ => false

/-- One full iteration of `elevator_loop` (main.rs lines 102-199): drain every
queued command, then run the decision and apply phases. -/
def loopStep (r : Receiver) (s : ElevatorState) : StepResult :=
  match tick (drainList r.queue s) with
  | none => StepResult.fault
  | some s2 => StepResult.cont s2

structure ElevatorHandle where
  connected : Bool
  state : ElevatorState
deriving DecidableEq

/-- The scoring loop of `Controller::request_elevator` (main.rs lines 77-88):
`best_score` starts at `i32::MAX = 2147483647`, `best_elevator` at `None`, and
an elevator is recorded only when its score is strictly below the best so far,
so the first minimum wins ties.  `idx` is the position of the list head within
the original fleet. -/
def selectAux (floor : Int) (dir : Direction) :
    List ElevatorState → Nat → Int → Option Nat → Option Nat
  | [], _, _, best => best
  | st :: rest, idx, bestScore, best =>
    if st.calculate_score floor dir < bestScore
    then selectAux floor dir rest (idx + 1) (st.calculate_score floor dir) (some idx)
    else selectAux floor dir rest (idx + 1) bestScore best

/-- Index of the elevator `Controller::request_elevator` picks, or `none` when
no score beats the initial `i32::MAX`. -/
def selectElevator (states : List ElevatorState) (floor : Int) (dir : Direction) : Option Nat :=
  selectAux floor dir states 0 2147483647 none

/-- `Controller::request_elevator` (main.rs lines 76-98).  Scoring reads every
handle's state, connected or not; when a winner exists, `AddStop` is sent with
`.unwrap()`, which panics if that worker's receiver is gone.  Result:
`some (some i)` = command sent to elevator `i`; `some none` = returned with no
assignment; `none` = panic on the failed send. -/
def requestElevator (fleet : List ElevatorHandle) (floor : Int) (dir : Direction) :
    Option (Option Nat) :=
  match selectElevator (fleet.map ElevatorHandle.state) floor dir with
  | none => some none
  | some i =>
    match fleet.get? i with
    | none => none
    | some h => if h.connected then some (some i) else none

/-! Helper lemmas about the range searches, the tick, and the scoring fold. -/

theorem stopAbove_eq_none {stops : Finset Int} {c : Int} :
    stopAbove stops c = none ↔ ∀ f ∈ stops, f ≤ c := by
  constructor
  · intro hnone f hf
    by_contra hlt
    have hne : (stops.filter fun f => c < f).Nonempty :=
      ⟨f, Finset.mem_filter.mpr ⟨hf, not_le.mp hlt⟩⟩
    rw [stopAbove, dif_pos hne] at hnone
    exact Option.noConfusion hnone
  · intro hall
    have hempty : ¬ (stops.filter fun f => c < f).Nonempty := by
      rintro ⟨x, hx⟩
      rw [Finset.mem_filter] at hx
      exact absurd hx.2 (not_lt.mpr (hall x hx.1))
    rw [stopAbove, dif_neg hempty]

theorem stopAtOrBelow_eq_none {stops : Finset Int} {c : Int} :
    stopAtOrBelow stops c = none ↔ ∀ f ∈ stops, c < f := by
  constructor
  · intro hnone f hf
    by_contra hge
    have hne : (stops.filter fun f => f ≤ c).Nonempty :=
      ⟨f, Finset.mem_filter.mpr ⟨hf, not_lt.mp hge⟩⟩
    rw [stopAtOrBelow, dif_pos hne] at hnone
    exact Option.noConfusion hnone
  · intro hall
    have hempty : ¬ (stops.filter fun f => f ≤ c).Nonempty := by
      rintro ⟨x, hx⟩
      rw [Finset.mem_filter] at hx
      exact absurd hx.2 (not_le.mpr (hall x hx.1))
    rw [stopAtOrBelow, dif_neg hempty]

theorem stopBelow_eq_none {stops : Finset Int} {c : Int} :
    stopBelow stops c = none ↔ ∀ f ∈ stops, c ≤ f := by
  constructor
  · intro hnone f hf
    by_contra hge
    have hne : (stops.filter fun f => f < c).Nonempty :=
      ⟨f, Finset.mem_filter.mpr ⟨hf, not_le.mp hge⟩⟩
    rw [stopBelow, dif_pos hne] at hnone
    exact Option.noConfusion hnone
  · intro hall
    have hempty : ¬ (stops.filter fun f => f < c).Nonempty := by
      rintro ⟨x, hx⟩
      rw [Finset.mem_filter] at hx
      exact absurd hx.2 (not_lt.mpr (hall x hx.1))
    rw [stopBelow, dif_neg hempty]

theorem stopAtOrAbove_eq_none {stops : Finset Int} {c : Int} :
    stopAtOrAbove stops c = none ↔ ∀ f ∈ stops, f < c := by
  constructor
  · intro hnone f hf
    by_contra hge
    have hne : (stops.filter fun f => c ≤ f).Nonempty :=
      ⟨f, Finset.mem_filter.mpr ⟨hf, not_lt.mp hge⟩⟩
    rw [stopAtOrAbove, dif_pos hne] at hnone
    exact Option.noConfusion hnone
  · intro hall
    have hempty : ¬ (stops.filter fun f => c ≤ f).Nonempty := by
      rintro ⟨x, hx⟩
      rw [Finset.mem_filter] at hx
      exact absurd hx.2 (not_le.mpr (hall x hx.1))
    rw [stopAtOrAbove, dif_neg hempty]

theorem stopAtOrBelow_isSome {stops : Finset Int} {c : Int}
    (h : ∃ f ∈ stops, f ≤ c) : ∃ v, stopAtOrBelow stops c = some v := by
  obtain ⟨f, hf, hle⟩ := h
  have hne : (stops.filter fun f => f ≤ c).Nonempty :=
    ⟨f, Finset.mem_filter.mpr ⟨hf, hle⟩⟩
  rw [stopAtOrBelow, dif_pos hne]
  exact ⟨_, rfl⟩

theorem decideMove_one_floor (s : ElevatorState) (hne : s.stops ≠ ∅) :
    ∀ nd : Int × Direction, decideMove s = some nd →
      nd.1 = s.current_floor + 1 ∨ nd.1 = s.current_floor - 1 := by
  obtain ⟨x, hx⟩ := Finset.nonempty_iff_ne_empty.mpr hne
  intro nd hd
  obtain ⟨i, c, dir, st⟩ := s
  simp only at hx
  cases dir with
  | Up =>
    simp only [decideMove] at hd
    cases ha : stopAbove st c with
    | some u =>
      rw [ha] at hd
      cases hd
      left; rfl
    | none =>
      rw [ha] at hd
      cases hb : stopAtOrBelow st c with
      | some d =>
        rw [hb] at hd
        cases hd
        right; rfl
      | none =>
        exact absurd (stopAbove_eq_none.mp ha x hx)
          (not_le.mpr (stopAtOrBelow_eq_none.mp hb x hx))
  | Down =>
    simp only [decideMove] at hd
    cases ha : stopBelow st c with
    | some d =>
      rw [ha] at hd
      cases hd
      right; rfl
    | none =>
      rw [ha] at hd
      cases hb : stopAtOrAbove st c with
      | some u =>
        rw [hb] at hd
        cases hd
        left; rfl
      | none =>
        exact absurd (stopBelow_eq_none.mp ha x hx)
          (not_le.mpr (stopAtOrAbove_eq_none.mp hb x hx))
  | Idle =>
    simp only [decideMove, idleDecision] at hd
    cases ha : stopAbove st c with
    | some u =>
      cases hb : stopBelow st c with
      | some d =>
        simp only [ha, hb] at hd
        by_cases hcmp : u - c ≤ c - d
        · rw [if_pos hcmp] at hd
          cases hd
          left; rfl
        · rw [if_neg hcmp] at hd
          cases hd
          right; rfl
      | none =>
        simp only [ha, hb] at hd
        cases hd
        left; rfl
    | none =>
      cases hb : stopBelow st c with
      | some d =>
        simp only [ha, hb] at hd
        cases hd
        right; rfl
      | none =>
        simp only [ha, hb] at hd
        exact Option.noConfusion hd

theorem tick_stops_erase (s s₂ : ElevatorState) (h : tick s = some s₂) :
    s₂.stops = s.stops.erase s₂.current_floor := by
  rw [tick] at h
  split at h
  · cases h
    rename_i hempty
    simp only [hempty, Finset.erase_empty]
  · cases hd : decideMove s with
    | none => rw [hd] at h; exact Option.noConfusion h
    | some nd =>
      obtain ⟨next, dir⟩ := nd
      rw [hd] at h
      cases h
      rfl

theorem selectAux_no_improvement (floor : Int) (dir : Direction) :
    ∀ (l : List ElevatorState) (idx : Nat) (b : Int) (acc : Option Nat),
      (∀ x ∈ l, b ≤ x.calculate_score floor dir) →
      selectAux floor dir l idx b acc = acc := by
  intro l
  induction l with
  | nil => intro idx b acc _; rfl
  | cons st rest ih =>
    intro idx b acc hall
    rw [selectAux,
      if_neg (not_lt.mpr (hall st (List.mem_cons_self st rest)))]
    exact ih (idx + 1) b acc fun x hx => hall x (List.mem_cons_of_mem st hx)

theorem selectAux_first_min (floor : Int) (dir : Direction) :
    ∀ (l : List ElevatorState) (idx : Nat) (b : Int) (acc : Option Nat),
      (∃ x ∈ l, x.calculate_score floor dir < b) →
      ∃ (k : Nat) (xk : ElevatorState),
        selectAux floor dir l idx b acc = some (idx + k) ∧
        l.get? k = some xk ∧
        xk.calculate_score floor dir < b ∧
        (∀ x ∈ l, xk.calculate_score floor dir ≤ x.calculate_score floor dir) ∧
        (∀ x ∈ l.take k, xk.calculate_score floor dir < x.calculate_score floor dir) := by
  intro l
  induction l with
  | nil =>
    rintro idx b acc ⟨x, hx, _⟩
    exact absurd hx (List.not_mem_nil x)
  | cons st rest ih =>
    rintro idx b acc ⟨x₀, hx₀, hx₀lt⟩
    rw [selectAux]
    by_cases hst : st.calculate_score floor dir < b
    · rw [if_pos hst]
      by_cases himp : ∃ y ∈ rest, y.calculate_score floor dir < st.calculate_score floor dir
      · obtain ⟨k₂, xk, hsel, hget, hlt, hmin, htake⟩ :=
          ih (idx + 1) (st.calculate_score floor dir) (some idx) himp
        refine ⟨k₂ + 1, xk, ?_, ?_, lt_trans hlt hst, ?_, ?_⟩
        · rw [hsel]
          congr 1
          omega
        · rw [List.get?_cons_succ]
          exact hget
        · intro x hx
          rcases List.mem_cons.mp hx with rfl | hx
          · exact le_of_lt hlt
          · exact hmin x hx
        · intro x hx
          rw [List.take_succ_cons] at hx
          rcases List.mem_cons.mp hx with rfl | hx
          · exact hlt
          · exact htake x hx
      · push_neg at himp
        refine ⟨0, st, ?_, rfl, hst, ?_, ?_⟩
        · rw [selectAux_no_improvement floor dir rest (idx + 1)
            (st.calculate_score floor dir) (some idx) himp]
          rw [Nat.add_zero]
        · intro x hx
          rcases List.mem_cons.mp hx with rfl | hx
          · exact le_refl _
          · exact himp x hx
        · intro x hx
          rw [List.take_zero] at hx
          exact absurd hx (List.not_mem_nil x)
    · rw [if_neg hst]
      have hx₀rest : x₀ ∈ rest := by
        rcases List.mem_cons.mp hx₀ with rfl | h
        · exact absurd hx₀lt hst
        · exact h
      obtain ⟨k₂, xk, hsel, hget, hlt, hmin, htake⟩ :=
        ih (idx + 1) b acc ⟨x₀, hx₀rest, hx₀lt⟩
      refine ⟨k₂ + 1, xk, ?_, ?_, hlt, ?_, ?_⟩
      · rw [hsel]
        congr 1
        omega
      · rw [List.get?_cons_succ]
        exact hget
      · intro x hx
        rcases List.mem_cons.mp hx with rfl | hx
        · exact le_trans (le_of_lt hlt) (not_lt.mp hst)
        · exact hmin x hx
      · intro x hx
        rw [List.take_succ_cons] at hx
        rcases List.mem_cons.mp hx with rfl | hx
        · exact lt_of_lt_of_le hlt (not_lt.mp hst)
        · exact htake x hx

/-! Claim theorems. -/

/-- Claim C1 (code bug): the claimed safety property fails on the code.  From
the initial state (floor 0, Idle, no stops) the single command `AddStop(0)`
followed by one tick reaches the `(None, None)` arm of the Idle decision — the
`unreachable!()` internal-consistency fault, modelled as `none` — because the
drain phase only inserts the stop and nothing services a stop equal to the
current floor immediately. -/
theorem c1_idle_fault_reachable :
    tick (applyCommand (ElevatorState.new 0) (Command.AddStop 0)) = none := by
  decide

/-- Claim C4 counterexample: the claim describes the Idle down search as the
nearest stop at-or-below the current floor, but the source uses the exclusive
`range(..current_floor)`.  At floor 5 with stops {5, 7} the claimed rule finds
`down_stop = 5` at distance 0 and moves down to 4, while the code ignores the
stop at the current floor and moves up to 6. -/
theorem c4_counterexample :
    idleDecisionClaimed {5, 7} 5 = some (4, Direction.Down) ∧
    idleDecision {5, 7} 5 = some (6, Direction.Up) ∧
    tick (ElevatorState.mk 0 5 Direction.Idle {5, 7}) =
      some (ElevatorState.mk 0 6 Direction.Up {5, 7}) := by
  decide

/-- Claim C4 amended: with the down search read as the nearest stop strictly
below the current floor, the Idle decision picks whichever of the two
candidates is closer, ties broken toward Up, and the concrete tie
`current_floor = 5`, `stops = {3, 7}` resolves to Up, moving to floor 6. -/
theorem c4_idle_decision :
    (∀ (stops : Finset Int) (c : Int), idleDecision stops c = idleDecisionAmended stops c) ∧
    tick (ElevatorState.mk 0 5 Direction.Idle {3, 7}) =
      some (ElevatorState.mk 0 6 Direction.Up {3, 7}) := by
  constructor
  · intro stops c
    rw [idleDecision, idleDecisionAmended]
    cases stopAbove stops c with
    | none => cases stopBelow stops c <;> rfl
    | some u =>
      cases stopBelow stops c with
      | none => rfl
      | some d =>
        dsimp only
        split_ifs <;> first | rfl | omega
  · decide

/-- Claim C5: `calculate_score` returns the absolute distance when the
elevator is Idle; when it is moving Up a same-direction request ahead scores
the distance, a same-direction request behind scores distance + 1000, an
opposite-direction request scores distance + 500; the Down case mirrors the Up
case with directions swapped. -/
theorem c5_calculate_score (s : ElevatorState) (floor : Int) :
    (s.direction = Direction.Idle → ∀ rd : Direction,
      s.calculate_score floor rd = ((s.current_floor - floor).natAbs : Int)) ∧
    (s.direction = Direction.Up →
      (floor ≥ s.current_floor →
        s.calculate_score floor Direction.Up = ((s.current_floor - floor).natAbs : Int)) ∧
      (floor < s.current_floor →
        s.calculate_score floor Direction.Up =
          ((s.current_floor - floor).natAbs : Int) + 1000) ∧
      s.calculate_score floor Direction.Down =
        ((s.current_floor - floor).natAbs : Int) + 500) ∧
    (s.direction = Direction.Down →
      (floor ≤ s.current_floor →
        s.calculate_score floor Direction.Down = ((s.current_floor - floor).natAbs : Int)) ∧
      (floor > s.current_floor →
        s.calculate_score floor Direction.Down =
          ((s.current_floor - floor).natAbs : Int) + 1000) ∧
      s.calculate_score floor Direction.Up =
        ((s.current_floor - floor).natAbs : Int) + 500) := by
  refine ⟨fun h rd => ?_, fun h => ⟨fun hge => ?_, fun hlt => ?_, ?_⟩,
    fun h => ⟨fun hle => ?_, fun hgt => ?_, ?_⟩⟩
  · simp [ElevatorState.calculate_score, h]
  · simp [ElevatorState.calculate_score, h, hge]
  · simp [ElevatorState.calculate_score, h, not_le.mpr hlt]
  · simp [ElevatorState.calculate_score, h]
  · simp [ElevatorState.calculate_score, h, hle]
  · simp [ElevatorState.calculate_score, h, not_le.mpr hgt]
  · simp [ElevatorState.calculate_score, h]

/-- Witness for C5: concrete evaluations through every scored case. -/
theorem c5_calculate_score_witness :
    (ElevatorState.mk 0 2 Direction.Idle ∅).calculate_score 5 Direction.Up =
      (((2 : Int) - 5).natAbs : Int) ∧
    (ElevatorState.mk 0 2 Direction.Up ∅).calculate_score 5 Direction.Up =
      (((2 : Int) - 5).natAbs : Int) ∧
    (ElevatorState.mk 0 7 Direction.Up ∅).calculate_score 5 Direction.Up =
      (((7 : Int) - 5).natAbs : Int) + 1000 ∧
    (ElevatorState.mk 0 2 Direction.Up ∅).calculate_score 5 Direction.Down =
      (((2 : Int) - 5).natAbs : Int) + 500 ∧
    (ElevatorState.mk 0 7 Direction.Down ∅).calculate_score 5 Direction.Down =
      (((7 : Int) - 5).natAbs : Int) ∧
    (ElevatorState.mk 0 2 Direction.Down ∅).calculate_score 5 Direction.Down =
      (((2 : Int) - 5).natAbs : Int) + 1000 ∧
    (ElevatorState.mk 0 7 Direction.Down ∅).calculate_score 5 Direction.Up =
      (((7 : Int) - 5).natAbs : Int) + 500 := by
  refine ⟨?_, ?_, ?_, ?_, ?_, ?_, ?_⟩
  · exact (c5_calculate_score (ElevatorState.mk 0 2 Direction.Idle ∅) 5).1 rfl Direction.Up
  · exact ((c5_calculate_score (ElevatorState.mk 0 2 Direction.Up ∅) 5).2.1 rfl).1 (by decide)
  · exact ((c5_calculate_score (ElevatorState.mk 0 7 Direction.Up ∅) 5).2.1 rfl).2.1 (by decide)
  · exact ((c5_calculate_score (ElevatorState.mk 0 2 Direction.Up ∅) 5).2.1 rfl).2.2
  · exact ((c5_calculate_score (ElevatorState.mk 0 7 Direction.Down ∅) 5).2.2 rfl).1 (by decide)
  · exact ((c5_calculate_score (ElevatorState.mk 0 2 Direction.Down ∅) 5).2.2 rfl).2.1 (by decide)
  · exact ((c5_calculate_score (ElevatorState.mk 0 7 Direction.Down ∅) 5).2.2 rfl).2.2

/-- Claim C6: from floor 5 moving Up with the single stop {2}, the next three
ticks visit floors 4, 3, 2; the direction flips to Down on the first of them
and the stop set is empty after the third (the stop at floor 2 is removed on
arrival). -/
theorem c6_sweep_reversal :
    tick (ElevatorState.mk 0 5 Direction.Up {2}) =
      some (ElevatorState.mk 0 4 Direction.Down {2}) ∧
    tick (ElevatorState.mk 0 4 Direction.Down {2}) =
      some (ElevatorState.mk 0 3 Direction.Down {2}) ∧
    tick (ElevatorState.mk 0 3 Direction.Down {2}) =
      some (ElevatorState.mk 0 2 Direction.Down ∅) := by
  decide

/-- Claim C8: on a tick whose decision phase sees an empty stop set the
worker only resets its direction to Idle and does not move; on a completed
tick with a non-empty stop set the floor changes by exactly one. -/
theorem c8_one_floor_per_tick (s : ElevatorState) :
    (s.stops = ∅ → tick s = some { s with direction := Direction.Idle }) ∧
    (s.stops ≠ ∅ → ∀ s₂ : ElevatorState, tick s = some s₂ →
      (s₂.current_floor - s.current_floor).natAbs = 1) := by
  constructor
  · intro h
    rw [tick, if_pos h]
  · intro hne s₂ ht
    rw [tick, if_neg hne] at ht
    cases hd : decideMove s with
    | none =>
      rw [hd] at ht
      exact Option.noConfusion ht
    | some nd =>
      obtain ⟨next, dir⟩ := nd
      rw [hd] at ht
      cases ht
      rcases decideMove_one_floor s hne (next, dir) hd with h1 | h1 <;>
        simp only at h1 <;> subst h1 <;> simp

/-- Witness for C8: the empty-stop tick at the initial state, and a one-floor
move for the non-empty tick from floor 5 heading Up with stop {2}. -/
theorem c8_one_floor_per_tick_witness :
    tick (ElevatorState.mk 0 0 Direction.Idle ∅) =
      some (ElevatorState.mk 0 0 Direction.Idle ∅) ∧
    (((4 : Int) - 5).natAbs = 1) := by
  constructor
  · exact (c8_one_floor_per_tick (ElevatorState.mk 0 0 Direction.Idle ∅)).1 rfl
  · exact (c8_one_floor_per_tick (ElevatorState.mk 0 5 Direction.Up {2})).2 (by decide)
      (ElevatorState.mk 0 4 Direction.Down {2}) (by decide)

/-- Claim C9: `AddStop` only inserts into the stop set, `Status` changes
nothing, and a completed tick leaves the stop set equal to the previous set
with exactly the arrived floor erased — so a pending stop is removed only by
arrival, and every other pending stop survives the tick. -/
theorem c9_stop_removal :
    (∀ (s : ElevatorState) (f : Int),
      (applyCommand s (Command.AddStop f)).stops = insert f s.stops) ∧
    (∀ s : ElevatorState, applyCommand s Command.Status = s) ∧
    (∀ s s₂ : ElevatorState, tick s = some s₂ →
      s₂.stops = s.stops.erase s₂.current_floor) ∧
    (∀ s s₂ : ElevatorState, tick s = some s₂ →
      ∀ f ∈ s.stops, f ≠ s₂.current_floor → f ∈ s₂.stops) := by
  refine ⟨fun s f => rfl, fun s => rfl, tick_stops_erase, fun s s₂ ht f hf hne => ?_⟩
  rw [tick_stops_erase s s₂ ht]
  exact Finset.mem_erase.mpr ⟨hne, hf⟩

/-- Witness for C9: servicing the arrival at floor 2 erases exactly that stop,
and a stop at floor 3 survives the tick that moves the elevator to floor 6. -/
theorem c9_stop_removal_witness :
    ((∅ : Finset Int) = ({2} : Finset Int).erase 2) ∧
    (3 : Int) ∈ ({3, 7} : Finset Int) := by
  constructor
  · exact c9_stop_removal.2.2.1 (ElevatorState.mk 0 3 Direction.Down {2})
      (ElevatorState.mk 0 2 Direction.Down ∅) (by decide)
  · exact c9_stop_removal.2.2.2 (ElevatorState.mk 0 5 Direction.Idle {3, 7})
      (ElevatorState.mk 0 6 Direction.Up {3, 7}) (by decide) 3 (by decide) (by decide)

/-- Claim C10: heading Up with no stop strictly above and some stop at or
below the current floor, the tick flips the direction to Down and moves to
`current_floor - 1`; a stop at the elevator's own floor is not serviced in
place — it survives the tick. -/
theorem c10_up_reversal (s : ElevatorState)
    (hdir : s.direction = Direction.Up)
    (habove : ∀ f ∈ s.stops, f ≤ s.current_floor)
    (hbelow : ∃ f ∈ s.stops, f ≤ s.current_floor) :
    tick s = some { s with direction := Direction.Down,
                           current_floor := s.current_floor - 1,
                           stops := s.stops.erase (s.current_floor - 1) } ∧
    (s.current_floor ∈ s.stops →
      s.current_floor ∈ s.stops.erase (s.current_floor - 1)) := by
  constructor
  · have hne : s.stops ≠ ∅ := by
      obtain ⟨f, hf, _⟩ := hbelow
      exact Finset.nonempty_iff_ne_empty.mp ⟨f, hf⟩
    rw [tick, if_neg hne]
    have hd : decideMove s = some (s.current_floor - 1, Direction.Down) := by
      obtain ⟨v, hv⟩ := stopAtOrBelow_isSome hbelow
      simp only [decideMove, hdir, stopAbove_eq_none.mpr habove, hv]
    rw [hd]
  · intro hmem
    exact Finset.mem_erase.mpr ⟨by omega, hmem⟩

/-- Witness for C10: at floor 5 heading Up with the single stop {5}, the tick
moves down to floor 4 and the stop at floor 5 is still pending. -/
theorem c10_up_reversal_witness :
    tick (ElevatorState.mk 0 5 Direction.Up {5}) =
      some (ElevatorState.mk 0 (5 - 1) Direction.Down (({5} : Finset Int).erase (5 - 1))) ∧
    ((5 : Int) ∈ ({5} : Finset Int) → (5 : Int) ∈ ({5} : Finset Int).erase (5 - 1)) := by
  exact c10_up_reversal (ElevatorState.mk 0 5 Direction.Up {5}) rfl (by decide) (by decide)

/-- Claim C2 counterexample: a fleet whose only elevator is disconnected.  The
dispatcher still scores it, selects it, and the `send(...).unwrap()` on its
closed channel panics (`none`), so the call fails instead of excluding the
disconnected elevator. -/
theorem c2_counterexample :
    requestElevator [ElevatorHandle.mk false (ElevatorState.new 0)] 5 Direction.Up = none := by
  decide

/-- Claim C2 amended: `request_elevator` does not exclude disconnected
elevators — scoring and selection read only the states (`selectElevator` takes
the state list, oblivious to channel status) — and once the selected winner is
found, the call completes with the send when the winner is connected and
panics on the `unwrap` of the failed send when it is not. -/
theorem c2_request_disconnected (fleet : List ElevatorHandle) (floor : Int)
    (dir : Direction) (j : Nat) (h : ElevatorHandle)
    (hsel : selectElevator (fleet.map ElevatorHandle.state) floor dir = some j)
    (hget : fleet.get? j = some h) :
    requestElevator fleet floor dir = if h.connected then some (some j) else none := by
  simp only [requestElevator, hsel, hget]

/-- Witness for C2: a two-elevator fleet whose disconnected second elevator is
closest; it is selected and the call panics. -/
theorem c2_request_disconnected_witness :
    requestElevator [ElevatorHandle.mk true (ElevatorState.mk 0 100 Direction.Idle ∅),
      ElevatorHandle.mk false (ElevatorState.mk 1 0 Direction.Idle ∅)] 5 Direction.Up = none := by
  exact c2_request_disconnected
    [ElevatorHandle.mk true (ElevatorState.mk 0 100 Direction.Idle ∅),
      ElevatorHandle.mk false (ElevatorState.mk 1 0 Direction.Idle ∅)]
    5 Direction.Up 1 (ElevatorHandle.mk false (ElevatorState.mk 1 0 Direction.Idle ∅))
    (by decide) (by decide)

/-- Claim C3 counterexample: a worker whose channel is disconnected and fully
drained, with no pending stops left.  The claim says the loop now terminates;
instead the iteration completes normally and the loop continues (`cont`, not
`exit`). -/
theorem c3_counterexample :
    loopStep (Receiver.mk [] true) (ElevatorState.new 0) =
      StepResult.cont (ElevatorState.new 0) ∧
    (loopStep (Receiver.mk [] true) (ElevatorState.new 0)).isExit = false := by
  decide

/-- Claim C3 amended: the worker loop has no termination path at all.  An
iteration never exits — `try_recv` returning Disconnected merely ends the
drain phase for that iteration exactly as Empty does, so the loop body is
oblivious to the disconnection flag — and the only way an iteration fails to
continue is the panic (`fault`) of the Idle-branch consistency check. -/
theorem c3_loop_no_termination :
    (∀ (r : Receiver) (s : ElevatorState), (loopStep r s).isExit = false) ∧
    (∀ (q : List Command) (b₁ b₂ : Bool) (s : ElevatorState),
      loopStep (Receiver.mk q b₁) s = loopStep (Receiver.mk q b₂) s) := by
  constructor
  · intro r s
    rw [loopStep]
    cases tick (drainList r.queue s) <;> rfl
  · intro q b₁ b₂ s
    rfl

/-- Claim C7 counterexample: a non-empty fleet with a connected elevator
idling at floor 2147483647.  Its score for a request at floor 0 is exactly
`i32::MAX`, the initial `best_score`; the strict `<` never fires, so
`best_elevator` stays `None` and no `AddStop` is sent to any elevator
(`some none`: the call returns without an assignment). -/
theorem c7_counterexample :
    List.length [ElevatorHandle.mk true (ElevatorState.mk 0 2147483647 Direction.Idle ∅)] = 1 ∧
    requestElevator [ElevatorHandle.mk true (ElevatorState.mk 0 2147483647 Direction.Idle ∅)]
      0 Direction.Up = some none := by
  decide

/-- Claim C7 amended: for a fleet of connected elevators in which some score
beats the `i32::MAX` sentinel, `request_elevator` sends `AddStop` to exactly
one elevator: one attaining the minimum score, and every elevator before it in
iteration order scores strictly worse, so ties break to the first encountered;
determinism over repeated identical calls is immediate since the result is a
function of the fleet, floor and direction. -/
theorem c7_first_min_assignment (fleet : List ElevatorHandle) (floor : Int)
    (dir : Direction)
    (hconn : ∀ h ∈ fleet, h.connected = true)
    (hlow : ∃ h ∈ fleet, h.state.calculate_score floor dir < 2147483647) :
    ∃ (j : Nat) (hj : ElevatorHandle),
      requestElevator fleet floor dir = some (some j) ∧
      fleet.get? j = some hj ∧
      (∀ h ∈ fleet, hj.state.calculate_score floor dir ≤ h.state.calculate_score floor dir) ∧
      (∀ h ∈ fleet.take j, hj.state.calculate_score floor dir < h.state.calculate_score floor dir) := by
  obtain ⟨h₀, hmem, hlt⟩ := hlow
  obtain ⟨k, xk, hsel, hget, hklt, hmin, htake⟩ :=
    selectAux_first_min floor dir (fleet.map ElevatorHandle.state) 0 2147483647 none
      ⟨h₀.state, List.mem_map_of_mem ElevatorHandle.state hmem, hlt⟩
  have hsel2 : selectElevator (fleet.map ElevatorHandle.state) floor dir = some k := by
    rw [selectElevator, hsel, Nat.zero_add]
  rw [List.get?_map] at hget
  cases hf : fleet.get? k with
  | none =>
    rw [hf] at hget
    exact Option.noConfusion hget
  | some hj =>
    rw [hf] at hget
    have hstate : hj.state = xk := by
      simpa using hget
    refine ⟨k, hj, ?_, hf, ?_, ?_⟩
    · simp only [requestElevator, hsel2, hf,
        if_pos (hconn hj (List.get?_mem hf))]
    · intro h hx
      rw [hstate]
      exact hmin h.state (List.mem_map_of_mem ElevatorHandle.state hx)
    · intro h hx
      rw [hstate]
      refine htake h.state ?_
      rw [← List.map_take]
      exact List.mem_map_of_mem ElevatorHandle.state hx

/-- Witness for C7: two connected idle elevators at floor 0 and a request for
floor 3 — a score tie resolved in favor of the first elevator. -/
theorem c7_first_min_assignment_witness :
    ∃ (j : Nat) (hj : ElevatorHandle),
      requestElevator [ElevatorHandle.mk true (ElevatorState.mk 0 0 Direction.Idle ∅),
        ElevatorHandle.mk true (ElevatorState.mk 1 0 Direction.Idle ∅)] 3 Direction.Up =
        some (some j) ∧
      [ElevatorHandle.mk true (ElevatorState.mk 0 0 Direction.Idle ∅),
        ElevatorHandle.mk true (ElevatorState.mk 1 0 Direction.Idle ∅)].get? j = some hj ∧
      (∀ h ∈ [ElevatorHandle.mk true (ElevatorState.mk 0 0 Direction.Idle ∅),
        ElevatorHandle.mk true (ElevatorState.mk 1 0 Direction.Idle ∅)],
        hj.state.calculate_score 3 Direction.Up ≤ h.state.calculate_score 3 Direction.Up) ∧
      (∀ h ∈ [ElevatorHandle.mk true (ElevatorState.mk 0 0 Direction.Idle ∅),
        ElevatorHandle.mk true (ElevatorState.mk 1 0 Direction.Idle ∅)].take j,
        hj.state.calculate_score 3 Direction.Up < h.state.calculate_score 3 Direction.Up) := by
  exact c7_first_min_assignment
    [ElevatorHandle.mk true (ElevatorState.mk 0 0 Direction.Idle ∅),
      ElevatorHandle.mk true (ElevatorState.mk 1 0 Direction.Idle ∅)]
    3 Direction.Up (by decide)
    ⟨ElevatorHandle.mk true (ElevatorState.mk 0 0 Direction.Idle ∅), by decide⟩
